import Mathlib

/-!
# Verification of the distance-metric core of `mini_vector_store_rs`

Shallow embedding of `src/core/distance.rs`. Rust `f32` values are modelled
as real numbers, so the theorems state the exact (real-arithmetic) semantics
of the formulas the code computes.

The `Vector` and `VectorError` types live in `src/core/vector.rs` and
`src/error.rs`, which are not among the provided sources; the parts of them
that `distance.rs` uses (`size`, `data`, `dot_product`, `norm`, and the
`DimensionsMismatch` error) are modelled from the specification (§3, §4.1,
§6), as marked on each definition.
-/

namespace MiniVectorStore

/-- Modelled from the spec (§3): a `Vector` is an ordered, fixed-length
sequence of floating-point numbers exposing length and element access
(`src/core/vector.rs` is not among the provided sources). -/
structure Vector where
  data : List ℝ

/-- Modelled from the spec (§3): `Vector::size` is the vector's length. -/
def Vector.size (v : Vector) : Nat :=
  v.data.length

/-- Modelled from the spec (§7): an error type representing a
dimension-mismatch condition with two integer fields
(`src/error.rs` is not among the provided sources). -/
inductive VectorError where
  | DimensionsMismatch (expected : Nat) (found : Nat)
deriving DecidableEq

/-- Modelled from the spec (§4.1 step 1, §6): `Vector::dot_product` computes
`sum over i of v1[i]*v2[i]`, re-validating dimensions with the same mismatch
error (`src/core/vector.rs` is not among the provided sources). -/
def Vector.dot_product (v1 v2 : Vector) : Except VectorError ℝ :=
  if v1.size ≠ v2.size then
    .error (.DimensionsMismatch v1.size v2.size)
  else
    .ok (((v1.data.zip v2.data).map (fun p => p.1 * p.2)).sum)

/-- Modelled from the spec (§4.1 step 2, §6): `Vector::norm` is the Euclidean
norm `sqrt(sum v[i]^2)` (`src/core/vector.rs` is not among the provided
sources). -/
noncomputable def Vector.norm (v : Vector) : ℝ :=
  Real.sqrt ((v.data.map (fun a => a ^ 2)).sum)

/-- `f32::clamp(lo, hi)` restricted to reals with `lo ≤ hi`:
below `lo` gives `lo`, above `hi` gives `hi`, otherwise the input. -/
def clamp (x lo hi : ℝ) : ℝ :=
  max lo (min hi x)

/-- The `Distance` enum of `src/core/distance.rs`. -/
inductive Distance where
  | Euclidean
  | Manhattan
  | CosineSim
deriving DecidableEq

open Classical in
/-- `Distance::distance` from `src/core/distance.rs`: dimension check first,
then the metric-specific arm. -/
noncomputable def Distance.distance (m : Distance) (v1 v2 : Vector) :
    Except VectorError ℝ :=
  if v1.size ≠ v2.size then
    .error (.DimensionsMismatch v1.size v2.size)
  else
    match m with
    | .Euclidean =>
        .ok (Real.sqrt (((v1.data.zip v2.data).map
          (fun p => (p.1 - p.2) ^ 2)).sum))
    | .Manhattan =>
        .ok (((v1.data.zip v2.data).map (fun p => |p.1 - p.2|)).sum)
    | .CosineSim =>
        (v1.dot_product v2).bind (fun dot =>
          let norm1 := v1.norm
          let norm2 := v2.norm
          if norm1 = 0 ∨ norm2 = 0 then
            .ok 1
          else
            .ok (1 - clamp (dot / (norm1 * norm2)) (-1) 1))

/-- `Distance::name` from `src/core/distance.rs`. -/
def Distance.name : Distance → String
  | .Euclidean => "euclidean"
  | .Manhattan => "manhattan"
  | .CosineSim => "cosinesim"

/-- Rust's `str::to_lowercase`, embedded as a character-wise lowercase map
(its Unicode and ASCII behaviour agree on every character relevant here). -/
def toLowercase (s : String) : String :=
  ⟨s.data.map Char.toLower⟩

/-- `Distance::from_name` from `src/core/distance.rs`: case-insensitive
lookup; the Rust `match` with or-patterns on `name.to_lowercase()` is
embedded as the corresponding chain of string comparisons. -/
def Distance.from_name (name : String) : Option Distance :=
  if toLowercase name = "euclidean" ∨ toLowercase name = "e" then
    some .Euclidean
  else if toLowercase name = "manhattan" ∨ toLowercase name = "m" then
    some .Manhattan
  else if toLowercase name = "cosinesim" ∨ toLowercase name = "c" then
    some .CosineSim
  else none

/-- `impl FromStr for Distance` from `src/core/distance.rs`:
delegates to `from_name`, turning `None` into a descriptive error string. -/
def Distance.from_str (s : String) : Except String Distance :=
  match Distance.from_name s with
  | some d => .ok d
  | none => .error ("Unknown distance metric: " ++ s)

/-! ## Helper lemmas about the list-level sums the code computes -/

/-- A zipped, mapped sum over two lists of equal length is the index-wise sum
of the same binary function over positions `0 ≤ i < length`. -/
theorem sum_zip_map_eq (f : ℝ → ℝ → ℝ) :
    ∀ l1 l2 : List ℝ, l1.length = l2.length →
      ((l1.zip l2).map (fun p => f p.1 p.2)).sum =
        ∑ i in Finset.range l1.length, f (l1.getD i 0) (l2.getD i 0) := by
  intro l1
  induction l1 with
  | nil => intro l2 h; simp
  | cons a t ih =>
    intro l2 h
    cases l2 with
    | nil => simp at h
    | cons b t2 =>
      simp only [List.zip_cons_cons, List.map_cons, List.sum_cons,
        List.length_cons]
      rw [Finset.sum_range_succ']
      simp only [List.getD_cons_succ, List.getD_cons_zero]
      rw [ih t2 (by simpa using h)]
      ring

/-- Zipping a list with itself and summing a binary function is summing the
diagonal of that function. -/
theorem sum_zip_self_map (f : ℝ → ℝ → ℝ) :
    ∀ l : List ℝ, ((l.zip l).map (fun p => f p.1 p.2)).sum =
      (l.map (fun a => f a a)).sum := by
  intro l
  induction l with
  | nil => simp
  | cons a t ih => simp [ih]

/-- For a symmetric binary function, the zipped sum does not depend on the
order of the two lists. -/
theorem sum_zip_map_comm (f : ℝ → ℝ → ℝ) (hf : ∀ a b, f a b = f b a) :
    ∀ l1 l2 : List ℝ, ((l1.zip l2).map (fun p => f p.1 p.2)).sum =
      ((l2.zip l1).map (fun p => f p.1 p.2)).sum := by
  intro l1
  induction l1 with
  | nil => intro l2; cases l2 <;> simp
  | cons a t ih =>
    intro l2
    cases l2 with
    | nil => simp
    | cons b t2 => simp [ih t2, hf a b]

/-- A sum of squares of list entries is non-negative. -/
theorem sum_map_sq_nonneg (l : List ℝ) :
    0 ≤ (l.map (fun a => a ^ 2)).sum := by
  refine List.sum_nonneg ?_
  intro x hx
  rcases List.mem_map.mp hx with ⟨a, _, rfl⟩
  positivity

/-- A sum of squares is strictly positive as soon as one entry is non-zero. -/
theorem sum_map_sq_pos {l : List ℝ} {x : ℝ} (hmem : x ∈ l) (hx : x ≠ 0) :
    0 < (l.map (fun a => a ^ 2)).sum := by
  induction l with
  | nil => simp at hmem
  | cons a t ih =>
    simp only [List.map_cons, List.sum_cons]
    rcases List.mem_cons.mp hmem with rfl | hmem'
    · have h1 : 0 < x ^ 2 := by positivity
      have h2 := sum_map_sq_nonneg t
      linarith
    · have h1 : 0 < (t.map (fun a => a ^ 2)).sum := ih hmem'
      have h2 : 0 ≤ a ^ 2 := sq_nonneg a
      linarith

/-- A vector with a non-zero entry has strictly positive Euclidean norm. -/
theorem norm_pos_of_nonzero {v : Vector} (h : ∃ x ∈ v.data, x ≠ 0) :
    0 < v.norm := by
  rcases h with ⟨x, hmem, hx⟩
  exact Real.sqrt_pos.mpr (sum_map_sq_pos hmem hx)

/-! ## Claims -/

/-- C1: for every metric variant and every pair of vectors of different
lengths, `distance` fails with `DimensionsMismatch` carrying
`expected = v1.size` and `found = v2.size`, independently of the metric
(the check precedes every metric-specific arm). -/
theorem C1_dimension_mismatch (m : Distance) (v1 v2 : Vector)
    (h : v1.size ≠ v2.size) :
    m.distance v1 v2 = .error (.DimensionsMismatch v1.size v2.size) := by
  unfold Distance.distance
  simp [h]

/-- Witness for C1 at `v1 = [1,2]`, `v2 = [1,2,3]` and the Euclidean metric. -/
theorem C1_dimension_mismatch_witness :
    Distance.distance .Euclidean ⟨[1, 2]⟩ ⟨[1, 2, 3]⟩ =
      .error (.DimensionsMismatch 2 3) :=
  C1_dimension_mismatch .Euclidean ⟨[1, 2]⟩ ⟨[1, 2, 3]⟩
    (by simp [Vector.size])

/-- C3: for equal-length vectors, the Euclidean arm returns
`sqrt(sum over i of (v1[i] - v2[i])^2)`, and any value it returns is
non-negative (the concrete case `[0,0]` vs `[3,4] = 5` is the witness). -/
theorem C3_euclidean_formula (v1 v2 : Vector) (h : v1.size = v2.size) :
    Distance.distance .Euclidean v1 v2 =
      .ok (Real.sqrt (∑ i in Finset.range v1.size,
        (v1.data.getD i 0 - v2.data.getD i 0) ^ 2)) ∧
    ∀ r, Distance.distance .Euclidean v1 v2 = .ok r → 0 ≤ r := by
  have key : Distance.distance .Euclidean v1 v2 =
      .ok (Real.sqrt (∑ i in Finset.range v1.size,
        (v1.data.getD i 0 - v2.data.getD i 0) ^ 2)) := by
    unfold Distance.distance
    rw [if_neg (by simp [h])]
    show Except.ok (Real.sqrt (((v1.data.zip v2.data).map
      (fun p => (p.1 - p.2) ^ 2)).sum)) = _
    rw [sum_zip_map_eq (fun a b => (a - b) ^ 2) v1.data v2.data h]
    rfl
  refine ⟨key, ?_⟩
  intro r hr
  rw [key] at hr
  simp only [Except.ok.injEq] at hr
  subst hr
  exact Real.sqrt_nonneg _

/-- Witness for C3: the Euclidean distance between `[0,0]` and `[3,4]`
is exactly `5`. -/
theorem C3_euclidean_formula_witness :
    Distance.distance .Euclidean ⟨[0, 0]⟩ ⟨[3, 4]⟩ = .ok 5 := by
  have h := C3_euclidean_formula ⟨[0, 0]⟩ ⟨[3, 4]⟩ (by simp [Vector.size])
  rw [h.1]
  have h25 : Real.sqrt 25 = 5 := by
    rw [show (25 : ℝ) = 5 ^ 2 by norm_num]
    exact Real.sqrt_sq (by norm_num)
  norm_num [Vector.size, Finset.sum_range_succ, h25]

/-- C4: for equal-length vectors, the Manhattan arm returns
`sum over i of |v1[i] - v2[i]|`, and any value it returns is non-negative
(the concrete case `[0,0]` vs `[3,4] = 7` is the witness). -/
theorem C4_manhattan_formula (v1 v2 : Vector) (h : v1.size = v2.size) :
    Distance.distance .Manhattan v1 v2 =
      .ok (∑ i in Finset.range v1.size,
        |v1.data.getD i 0 - v2.data.getD i 0|) ∧
    ∀ r, Distance.distance .Manhattan v1 v2 = .ok r → 0 ≤ r := by
  have key : Distance.distance .Manhattan v1 v2 =
      .ok (∑ i in Finset.range v1.size,
        |v1.data.getD i 0 - v2.data.getD i 0|) := by
    unfold Distance.distance
    rw [if_neg (by simp [h])]
    show Except.ok (((v1.data.zip v2.data).map
      (fun p => |p.1 - p.2|)).sum) = _
    rw [sum_zip_map_eq (fun a b => |a - b|) v1.data v2.data h]
    rfl
  refine ⟨key, ?_⟩
  intro r hr
  rw [key] at hr
  simp only [Except.ok.injEq] at hr
  subst hr
  exact Finset.sum_nonneg fun i _ => abs_nonneg _

/-- Witness for C4: the Manhattan distance between `[0,0]` and `[3,4]`
is exactly `7`. -/
theorem C4_manhattan_formula_witness :
    Distance.distance .Manhattan ⟨[0, 0]⟩ ⟨[3, 4]⟩ = .ok 7 := by
  have h := C4_manhattan_formula ⟨[0, 0]⟩ ⟨[3, 4]⟩ (by simp [Vector.size])
  rw [h.1]
  norm_num [Vector.size, Finset.sum_range_succ]

/-- Unfolding of the Euclidean arm for equal-length vectors. -/
theorem distance_euclidean_unfold (v1 v2 : Vector) (h : v1.size = v2.size) :
    Distance.distance .Euclidean v1 v2 =
      .ok (Real.sqrt (((v1.data.zip v2.data).map
        (fun p => (p.1 - p.2) ^ 2)).sum)) := by
  unfold Distance.distance
  rw [if_neg (by simp [h])]

/-- Unfolding of the Manhattan arm for equal-length vectors. -/
theorem distance_manhattan_unfold (v1 v2 : Vector) (h : v1.size = v2.size) :
    Distance.distance .Manhattan v1 v2 =
      .ok (((v1.data.zip v2.data).map (fun p => |p.1 - p.2|)).sum) := by
  unfold Distance.distance
  rw [if_neg (by simp [h])]

open Classical in
/-- Unfolding of the cosine arm for equal-length vectors: the dot product
re-validation succeeds, leaving the zero-norm guard and the clamped
similarity. -/
theorem distance_cosine_unfold (v1 v2 : Vector) (h : v1.size = v2.size) :
    Distance.distance .CosineSim v1 v2 =
      if v1.norm = 0 ∨ v2.norm = 0 then .ok 1
      else .ok (1 - clamp ((((v1.data.zip v2.data).map
        (fun p => p.1 * p.2)).sum) / (v1.norm * v2.norm)) (-1) 1) := by
  unfold Distance.distance Vector.dot_product
  rw [if_neg (by simp [h]), if_neg (by simp [h])]
  rfl

/-- The clamp to `[-1, 1]` never exceeds `1`. -/
theorem clamp_le_one (x : ℝ) : clamp x (-1) 1 ≤ 1 :=
  max_le (by norm_num) (min_le_left _ _)

/-- The clamp to `[-1, 1]` is at least `-1`. -/
theorem neg_one_le_clamp (x : ℝ) : (-1 : ℝ) ≤ clamp x (-1) 1 :=
  le_max_left _ _

/-- C2: for equal-length vectors with either Euclidean norm exactly zero,
the cosine arm returns the defined value `1`, not an error. -/
theorem C2_cosine_zero_norm (v1 v2 : Vector) (h : v1.size = v2.size)
    (h0 : v1.norm = 0 ∨ v2.norm = 0) :
    Distance.distance .CosineSim v1 v2 = .ok 1 := by
  rw [distance_cosine_unfold v1 v2 h, if_pos h0]

/-- Witness for C2: the cosine distance between `[0,0]` and `[3,4]`
is exactly `1`. -/
theorem C2_cosine_zero_norm_witness :
    Distance.distance .CosineSim ⟨[0, 0]⟩ ⟨[3, 4]⟩ = .ok 1 :=
  C2_cosine_zero_norm ⟨[0, 0]⟩ ⟨[3, 4]⟩ (by simp [Vector.size])
    (Or.inl (by norm_num [Vector.norm]))

/-- C5: for equal-length vectors with both norms non-zero, the cosine arm
returns `1 - clamp(dot/(norm1*norm2), -1, 1)`, and any value it returns
lies in `[0, 2]`. -/
theorem C5_cosine_formula (v1 v2 : Vector) (h : v1.size = v2.size)
    (h1 : v1.norm ≠ 0) (h2 : v2.norm ≠ 0) :
    Distance.distance .CosineSim v1 v2 =
      .ok (1 - clamp ((∑ i in Finset.range v1.size,
        v1.data.getD i 0 * v2.data.getD i 0) / (v1.norm * v2.norm)) (-1) 1) ∧
    ∀ r, Distance.distance .CosineSim v1 v2 = .ok r → 0 ≤ r ∧ r ≤ 2 := by
  have key : Distance.distance .CosineSim v1 v2 =
      .ok (1 - clamp ((∑ i in Finset.range v1.size,
        v1.data.getD i 0 * v2.data.getD i 0) /
        (v1.norm * v2.norm)) (-1) 1) := by
    rw [distance_cosine_unfold v1 v2 h, if_neg (by tauto),
      sum_zip_map_eq (fun a b => a * b) v1.data v2.data h]
    rfl
  refine ⟨key, ?_⟩
  intro r hr
  rw [key] at hr
  simp only [Except.ok.injEq] at hr
  subst hr
  constructor
  · have hc := clamp_le_one ((∑ i in Finset.range v1.size,
      v1.data.getD i 0 * v2.data.getD i 0) / (v1.norm * v2.norm))
    linarith
  · have hc := neg_one_le_clamp ((∑ i in Finset.range v1.size,
      v1.data.getD i 0 * v2.data.getD i 0) / (v1.norm * v2.norm))
    linarith

/-- Witness for C5: the cosine distance between the orthogonal vectors
`[1,0]` and `[0,1]` is exactly `1`. -/
theorem C5_cosine_formula_witness :
    Distance.distance .CosineSim ⟨[1, 0]⟩ ⟨[0, 1]⟩ = .ok 1 := by
  have h := C5_cosine_formula ⟨[1, 0]⟩ ⟨[0, 1]⟩ (by simp [Vector.size])
    (by norm_num [Vector.norm]) (by norm_num [Vector.norm])
  rw [h.1]
  norm_num [Vector.size, Finset.sum_range_succ, clamp, min_def, max_def]

/-- C8: for every metric variant and every pair of equal-length vectors,
`distance` is symmetric in its two vector arguments. -/
theorem C8_symmetry (m : Distance) (v1 v2 : Vector) (h : v1.size = v2.size) :
    m.distance v1 v2 = m.distance v2 v1 := by
  cases m with
  | Euclidean =>
    rw [distance_euclidean_unfold v1 v2 h,
      distance_euclidean_unfold v2 v1 h.symm,
      sum_zip_map_comm (fun a b => (a - b) ^ 2) (fun a b => by ring)
        v1.data v2.data]
  | Manhattan =>
    rw [distance_manhattan_unfold v1 v2 h,
      distance_manhattan_unfold v2 v1 h.symm,
      sum_zip_map_comm (fun a b => |a - b|) (fun a b => abs_sub_comm a b)
        v1.data v2.data]
  | CosineSim =>
    rw [distance_cosine_unfold v1 v2 h, distance_cosine_unfold v2 v1 h.symm]
    by_cases h0 : v1.norm = 0 ∨ v2.norm = 0
    · rw [if_pos h0, if_pos (Or.symm h0)]
    · rw [if_neg h0, if_neg (fun hc => h0 (Or.symm hc)),
        sum_zip_map_comm (fun a b => a * b) (fun a b => mul_comm a b)
          v1.data v2.data, mul_comm v1.norm v2.norm]

/-- Witness for C8 at the Manhattan metric on `[1,2]` and `[3,5]`. -/
theorem C8_symmetry_witness :
    Distance.distance .Manhattan ⟨[1, 2]⟩ ⟨[3, 5]⟩ =
      Distance.distance .Manhattan ⟨[3, 5]⟩ ⟨[1, 2]⟩ :=
  C8_symmetry .Manhattan ⟨[1, 2]⟩ ⟨[3, 5]⟩ (by simp [Vector.size])

/-- C9: every vector has Euclidean and Manhattan self-distance `0`, and
every vector with a non-zero entry has cosine self-distance `0`. -/
theorem C9_identity_at_zero (v : Vector) :
    Distance.distance .Euclidean v v = .ok 0 ∧
    Distance.distance .Manhattan v v = .ok 0 ∧
    ((∃ x ∈ v.data, x ≠ 0) → Distance.distance .CosineSim v v = .ok 0) := by
  refine ⟨?_, ?_, ?_⟩
  · rw [distance_euclidean_unfold v v rfl,
      sum_zip_self_map (fun a b => (a - b) ^ 2) v.data]
    have hz : (v.data.map (fun a => (a - a) ^ 2)).sum = 0 := by
      refine List.sum_eq_zero ?_
      intro x hx
      rcases List.mem_map.mp hx with ⟨a, _, rfl⟩
      ring
    rw [hz, Real.sqrt_zero]
  · rw [distance_manhattan_unfold v v rfl,
      sum_zip_self_map (fun a b => |a - b|) v.data]
    have hz : (v.data.map (fun a => |a - a|)).sum = 0 := by
      refine List.sum_eq_zero ?_
      intro x hx
      rcases List.mem_map.mp hx with ⟨a, _, rfl⟩
      simp
    rw [hz]
  · intro hx
    have hpos : 0 < v.norm := norm_pos_of_nonzero hx
    rw [distance_cosine_unfold v v rfl,
      if_neg (by push_neg; exact ⟨ne_of_gt hpos, ne_of_gt hpos⟩)]
    have hsq : (fun a : ℝ => a * a) = fun a => a ^ 2 := by
      funext a
      ring
    have hdot : ((v.data.zip v.data).map (fun p => p.1 * p.2)).sum =
        (v.data.map (fun a => a ^ 2)).sum := by
      rw [sum_zip_self_map (fun a b => a * b) v.data, hsq]
    have hnn : v.norm * v.norm = (v.data.map (fun a => a ^ 2)).sum :=
      Real.mul_self_sqrt (sum_map_sq_nonneg v.data)
    have hS : (0 : ℝ) < (v.data.map (fun a => a ^ 2)).sum := by
      rcases hx with ⟨x, hm, hx0⟩
      exact sum_map_sq_pos hm hx0
    rw [hdot, hnn, div_self (ne_of_gt hS)]
    norm_num [clamp, min_def, max_def]

/-- Witness for C9 at the non-zero vector `[3,4]`. -/
theorem C9_identity_at_zero_witness :
    Distance.distance .CosineSim ⟨[3, 4]⟩ ⟨[3, 4]⟩ = .ok 0 :=
  (C9_identity_at_zero ⟨[3, 4]⟩).2.2 ⟨3, by simp, by norm_num⟩

/-- C6: parsing the canonical name of each metric variant returns that same
variant: `from_name (name d) = some d` for all three variants. -/
theorem C6_name_roundtrip (d : Distance) :
    Distance.from_name d.name = some d := by
  cases d <;> decide

/-- Witness for C6 at the `CosineSim` variant. -/
theorem C6_name_roundtrip_witness :
    Distance.from_name (Distance.name .CosineSim) = some .CosineSim :=
  C6_name_roundtrip .CosineSim

/-- C7: `from_name` returns `some` of a variant exactly when the lowercased
input is that variant's canonical name or single-letter shorthand, and
returns `none` on every other string, in particular on `"bogus"`. -/
theorem C7_from_name_characterization (s : String) :
    (Distance.from_name s = some .Euclidean ↔
      (toLowercase s = "euclidean" ∨ toLowercase s = "e")) ∧
    (Distance.from_name s = some .Manhattan ↔
      (toLowercase s = "manhattan" ∨ toLowercase s = "m")) ∧
    (Distance.from_name s = some .CosineSim ↔
      (toLowercase s = "cosinesim" ∨ toLowercase s = "c")) ∧
    (Distance.from_name s = none ↔
      ¬(toLowercase s = "euclidean" ∨ toLowercase s = "e" ∨
        toLowercase s = "manhattan" ∨ toLowercase s = "m" ∨
        toLowercase s = "cosinesim" ∨ toLowercase s = "c")) ∧
    Distance.from_name "bogus" = none := by
  unfold Distance.from_name
  generalize toLowercase s = t
  by_cases h1 : t = "euclidean" ∨ t = "e"
  · rcases h1 with rfl | rfl <;> decide
  · by_cases h2 : t = "manhattan" ∨ t = "m"
    · rcases h2 with rfl | rfl <;> decide
    · by_cases h3 : t = "cosinesim" ∨ t = "c"
      · rcases h3 with rfl | rfl <;> decide
      · rw [if_neg h1, if_neg h2, if_neg h3]
        push_neg at h1 h2 h3
        refine ⟨?_, ?_, ?_, ?_, by decide⟩ <;> simp_all

/-- C10: the `FromStr` implementation agrees with `from_name` on every
input: it returns `Ok d` exactly when `from_name` returns `Some d`, and an
error exactly when `from_name` returns `None`. -/
theorem C10_from_str_from_name_agree (s : String) :
    (∀ d, Distance.from_str s = .ok d ↔ Distance.from_name s = some d) ∧
    ((∃ e, Distance.from_str s = .error e) ↔
      Distance.from_name s = none) := by
  cases h : Distance.from_name s with
  | none =>
    constructor
    · intro d
      simp [Distance.from_str, h]
    · simp [Distance.from_str, h]
  | some d' =>
    constructor
    · intro d
      simp [Distance.from_str, h]
    · simp [Distance.from_str, h]

/-- Witness for C10 at the shorthand `"e"`. -/
theorem C10_from_str_from_name_agree_witness :
    Distance.from_name "e" = some .Euclidean :=
  ((C10_from_str_from_name_agree "e").1 .Euclidean).mp (by rfl)

end MiniVectorStore
